import Mathlib

/-!
# resolve: bulk forward / reverse DNS lookups

A shallow embedding of `main.go` and the properties of its resolution pipeline.

Go strings are modelled by Lean strings (valid UTF-8 text).  The characters the
program inspects (space, comma, colon, dot) are ASCII, so the byte-wise library
routines it calls agree with the character-wise ones below.

The DNS library (`net`) is external to the program: its answers, the textual
address parser and the textual form of an address are fields of `Net`.
-/

set_option autoImplicit false

namespace Resolve

/-! ## The `strings` routines the program calls -/

/-- Scan for `strings.Replace(s, old, new, -1)`: `skip` counts the characters of a
matched occurrence of `old` still to be passed over. -/
def replaceGo (old new : List Char) : Nat → List Char → List Char
  | _, [] => if old = [] then new else []
  | skip + 1, _ :: cs => replaceGo old new skip cs
  | 0, c :: cs =>
    if old = [] then new ++ c :: replaceGo old new 0 cs
    else if old.isPrefixOf (c :: cs) then new ++ replaceGo old new (old.length - 1) cs
    else c :: replaceGo old new 0 cs

/-- Go `strings.ReplaceAll(s, old, new)`: every non-overlapping occurrence of `old`,
found left to right, is replaced by `new`. -/
def ReplaceAll (s old new : String) : String :=
  ⟨replaceGo old.data new.data 0 s.data⟩

/-- Scan for `strings.Split` with a non-empty separator: `cur` is the current piece
(reversed), `skip` the characters of a matched separator still to be passed over. -/
def splitGo (sep : List Char) : Nat → List Char → List Char → List String
  | _, cur, [] => [⟨cur.reverse⟩]
  | skip + 1, cur, _ :: cs => splitGo sep skip cur cs
  | 0, cur, c :: cs =>
    if sep.isPrefixOf (c :: cs) then ⟨cur.reverse⟩ :: splitGo sep (sep.length - 1) [] cs
    else splitGo sep 0 (c :: cur) cs

/-- Go `strings.Split(s, sep)`: the pieces of `s` between the occurrences of `sep`;
with an empty separator, one piece per character. -/
def Split (s sep : String) : List String :=
  if sep.data = [] then s.data.map (fun c => ⟨[c]⟩)
  else splitGo sep.data 0 [] s.data

/-- Scan for `strings.Contains`: does `substr` start at some position of the text. -/
def containsGo (substr : List Char) : List Char → Bool
  | [] => substr.isPrefixOf []
  | c :: cs => substr.isPrefixOf (c :: cs) || containsGo substr cs

/-- Go `strings.Contains(s, substr)`. -/
def Contains (s substr : String) : Bool :=
  containsGo substr.data s.data

/-- Go `strings.TrimRight(s, cutset)`: `s` without its longest suffix made of
characters of `cutset`. -/
def TrimRight (s cutset : String) : String :=
  ⟨s.data.rdropWhile (fun c => cutset.data.contains c)⟩

/-! ## The `net` package, seen from the program -/

/-- A request the program makes to the `net` package. -/
inductive Query
  /-- The call `net.LookupIP(host)` on the platform resolver; it takes no network argument. -/
  | sysLookupIP (host : String)
  /-- The call `r.LookupIP(ctx, network, host)` on a resolver whose connections dial `dial`. -/
  | lookupIP (dial network host : String)
  /-- The call `net.LookupAddr(addr)` on the platform resolver. -/
  | sysLookupAddr (addr : String)
  /-- The call `r.LookupAddr(ctx, addr)` on a resolver whose connections dial `dial`. -/
  | lookupAddr (dial addr : String)
  deriving DecidableEq, Repr

/-- The two values a `net` lookup returns: the slice and the error (`none` is the nil
error). -/
structure Reply (α : Type) where
  slice : List α
  err : Option String

/-- A successful lookup returning `l`. -/
def Reply.ok {α : Type} (l : List α) : Reply α :=
  ⟨l, none⟩

/-- A failed lookup: the nil slice together with an error. -/
def Reply.fail {α : Type} (msg : String) : Reply α :=
  ⟨[], some msg⟩

/-- The `net` package and the DNS behind it: the textual address parser `net.ParseIP`
(`none` is Go's `nil`), the textual form `IP.String` of an address, and what each lookup
returns. -/
structure Net (IP : Type) where
  ParseIP : String → Option IP
  ipString : IP → String
  ips : Query → Reply IP
  names : Query → Reply String

/-- The slice left in `lst` by `lst, _ = r.Lookup…(…)`: the program keeps the slice and
discards the error.  A lookup that fails outright returns the nil slice; `LookupAddr` can
also return an error together with the names it could keep. -/
def answer {α : Type} (r : Reply α) : List α :=
  r.slice

/-- The address family a forward query asks the resolver for.  `net.LookupIP(host)` has no
network argument and looks up both IPv4 and IPv6 addresses (network `ip`). -/
def Query.network : Query → Option String
  | .sysLookupIP _ => some "ip"
  | .lookupIP _ network _ => some network
  | .sysLookupAddr _ => none
  | .lookupAddr _ _ => none

/-- Is the query a forward (name to address) lookup. -/
def Query.isForward : Query → Bool
  | .sysLookupIP _ => true
  | .lookupIP _ _ _ => true
  | .sysLookupAddr _ => false
  | .lookupAddr _ _ => false

/-! ## The program -/

/-- The process-wide configuration read by the lookups: the globals `servers` and `ipv6`. -/
structure Config where
  servers : List String
  ipv6 : Bool
  deriving DecidableEq, Repr

/-- What a lookup does: the queries it makes, in order, and the arguments of its successive
`fmt.Println` calls, in order. -/
structure Run where
  queries : List Query
  out : List String
  deriving DecidableEq, Repr

/-- The global `servers` after `main` has handled the `-s` string `s` (lines 44-47); the
global starts as the nil slice. -/
def parseServers (s : String) : List String :=
  if s ≠ "" then Split (ReplaceAll s " " "") "," else []

/-- The test `len(servers) > 0` of `lookup` and `lookupReverse`: the custom nameservers are
used; otherwise the platform resolver is. -/
def useCustom (servers : List String) : Bool :=
  decide (servers.length > 0)

/-- The loop of `lookup` over `servers` (lines 108-125), entered with the current values of
`useNet` and `lst`; returns the queries made and the final `lst`. -/
def lookupChain {IP : Type} (net : Net IP) (ipv6 : Bool) (targ : String) :
    List String → String → List IP → List Query × List IP
  | [], _, lst => ([], lst)
  | curserv :: rest, useNet, _ =>
    let useNet := if ipv6 then "ip" else useNet
    let q := Query.lookupIP (curserv ++ ":53") useNet targ
    let lst := answer (net.ips q)
    if lst.length > 0 then ([q], lst)
    else
      let r := lookupChain net ipv6 targ rest useNet lst
      (q :: r.1, r.2)

/-- Lines 105-129 of `lookup`: the queries made and the address list `lst` obtained. -/
def lookupResolve {IP : Type} (net : Net IP) (cfg : Config) (targ : String) :
    List Query × List IP :=
  if cfg.servers.length > 0 then lookupChain net cfg.ipv6 targ cfg.servers "ip4" []
  else ([Query.sysLookupIP targ], answer (net.ips (Query.sysLookupIP targ)))

/-- The printing loop of `lookup` (lines 135-140). -/
def lookupPrintLoop {IP : Type} (net : Net IP) (ipv6 : Bool) (targ : String) :
    List IP → List String
  | [] => []
  | i :: rest =>
    if !ipv6 && Contains (net.ipString i) ":" then lookupPrintLoop net ipv6 targ rest
    else (targ ++ ":" ++ net.ipString i) :: lookupPrintLoop net ipv6 targ rest

/-- Lines 131-140 of `lookup`: the lines printed for the address list `lst`. -/
def lookupPrint {IP : Type} (net : Net IP) (ipv6 : Bool) (targ : String) (lst : List IP) :
    List String :=
  if lst.length = 0 then [targ ++ ":"] else lookupPrintLoop net ipv6 targ lst

/-- The forward lookup `lookup(targ)`. -/
def lookup {IP : Type} (net : Net IP) (cfg : Config) (targ : String) : Run :=
  let r := lookupResolve net cfg targ
  ⟨r.1, lookupPrint net cfg.ipv6 targ r.2⟩

/-- The loop of `lookupReverse` over `servers` (lines 147-161), entered with the current
value of `lst`; returns the queries made and the final `lst`. -/
def lookupReverseChain {IP : Type} (net : Net IP) (targ : String) :
    List String → List String → List Query × List String
  | [], lst => ([], lst)
  | curserv :: rest, _ =>
    let q := Query.lookupAddr (curserv ++ ":53") targ
    let lst := answer (net.names q)
    if lst.length > 0 then ([q], lst)
    else
      let r := lookupReverseChain net targ rest lst
      (q :: r.1, r.2)

/-- Lines 145-165 of `lookupReverse`: the queries made and the name list `lst` obtained. -/
def lookupReverseResolve {IP : Type} (net : Net IP) (cfg : Config) (targ : String) :
    List Query × List String :=
  if cfg.servers.length > 0 then lookupReverseChain net targ cfg.servers []
  else ([Query.sysLookupAddr targ], answer (net.names (Query.sysLookupAddr targ)))

/-- The printing loop of `lookupReverse` (lines 171-174). -/
def lookupReversePrintLoop (targ : String) : List String → List String
  | [] => []
  | i :: rest => (TrimRight i "." ++ ":" ++ targ) :: lookupReversePrintLoop targ rest

/-- Lines 167-174 of `lookupReverse`: the lines printed for the name list `lst`. -/
def lookupReversePrint (targ : String) (lst : List String) : List String :=
  if lst.length = 0 then [":" ++ targ] else lookupReversePrintLoop targ lst

/-- The reverse lookup `lookupReverse(targ)`. -/
def lookupReverse {IP : Type} (net : Net IP) (cfg : Config) (targ : String) : Run :=
  let r := lookupReverseResolve net cfg targ
  ⟨r.1, lookupReversePrint targ r.2⟩

/-- The test `isIPAddress(ip)`: `net.ParseIP(ip)` is not nil. -/
def isIPAddress {IP : Type} (net : Net IP) (ip : String) : Bool :=
  match net.ParseIP ip with
  | none => false
  | some _ => true

/-- The dispatch `doResolve(targ)`. -/
def doResolve {IP : Type} (net : Net IP) (cfg : Config) (targ : String) : Run :=
  if isIPAddress net targ then lookupReverse net cfg targ else lookup net cfg targ

/-! ## Reading of the specification used for comparison -/

/-- The nameserver parsing in the words of the specification: strip all whitespace from the
raw string, then split on commas. -/
def specParseServers (raw : String) : List String :=
  Split ⟨raw.data.filter (fun c => !c.isWhitespace)⟩ ","

/-- The answer of a server in the words of the specification: an erroring server counts as
an empty answer. -/
def specAnswer {α : Type} (r : Reply α) : List α :=
  match r.err with
  | some _ => []
  | none => r.slice

/-- Does the name end in two dots.  The names `LookupAddr` returns are validated domain
names, in which a dot never follows a dot, so none of them does. -/
def endsInTwoDots (name : String) : Bool :=
  match name.data.reverse with
  | '.' :: '.' :: _ => true
  | _ => false

/-- The reverse-name formatting in the words of the specification: exactly one trailing `.`
is removed if the name ends in `.`, and the name is unchanged otherwise. -/
def specStripDot (name : String) : String :=
  match name.data.reverse with
  | '.' :: rest => ⟨rest.reverse⟩
  | _ => name

/-! ## A small concrete `net` for evaluation -/

/-- A test double of the `net` package.  Addresses are kept in textual form and only
`8.8.8.8` and `2001:db8::1` parse as addresses.  Forward: the nameserver `10.0.0.1` answers
empty, `10.0.0.2` fails, `10.0.0.3` answers (with an IPv6 address too when both families are
asked for); the platform resolver knows `v6only.example` by an IPv6 address only.  Reverse:
`10.0.0.1` fails, `10.0.0.2` answers, the platform resolver answers with one name. -/
def demoNet : Net String where
  ParseIP := fun s => if s = "8.8.8.8" ∨ s = "2001:db8::1" then some s else none
  ipString := fun a => a
  ips := fun q =>
    match q with
    | .lookupIP "10.0.0.1:53" _ _ => Reply.ok []
    | .lookupIP "10.0.0.2:53" _ _ => Reply.fail "i/o timeout"
    | .lookupIP "10.0.0.3:53" "ip4" _ => Reply.ok ["93.184.216.34"]
    | .lookupIP "10.0.0.3:53" _ _ => Reply.ok ["93.184.216.34", "2606:2800:220:1::1"]
    | .sysLookupIP "v6only.example" => Reply.ok ["2001:db8::1"]
    | .sysLookupIP _ => Reply.ok ["93.184.216.34", "2606:2800:220:1::1"]
    | _ => Reply.fail "no such host"
  names := fun q =>
    match q with
    | .lookupAddr "10.0.0.2:53" _ => Reply.ok ["host.example.com."]
    | .lookupAddr "10.0.0.3:53" _ => Reply.ok ["other.example.com."]
    | .sysLookupAddr _ => Reply.ok ["dns.google."]
    | _ => Reply.fail "no such host"

/-- A second test double, for reverse lookups only: the nameserver `10.0.0.1` answers with
one malformed record among its names, so that `LookupAddr` returns the name it could keep
together with an error; `10.0.0.2` answers cleanly. -/
def partialNet : Net String where
  ParseIP := fun s => if s = "8.8.8.8" then some s else none
  ipString := fun a => a
  ips := fun _ => Reply.fail "no such host"
  names := fun q =>
    match q with
    | .lookupAddr "10.0.0.1:53" _ =>
      ⟨["partial.example.com."], some "DNS response contained records which contain invalid names"⟩
    | .lookupAddr "10.0.0.2:53" _ => Reply.ok ["full.example.com."]
    | _ => Reply.fail "no such host"

/-- The query `lookup` makes for `targ` to the custom nameserver `srv` (lines 109-121). -/
def forwardQuery (ipv6 : Bool) (targ srv : String) : Query :=
  Query.lookupIP (srv ++ ":53") (if ipv6 then "ip" else "ip4") targ

/-- The query `lookupReverse` makes for `targ` to the custom nameserver `srv`
(lines 148-157). -/
def reverseQuery (targ srv : String) : Query :=
  Query.lookupAddr (srv ++ ":53") targ

/-- The string of `k` dots. -/
def dots (k : Nat) : String :=
  ⟨List.replicate k '.'⟩

/-! ## The dispatcher and its lookup tasks

The goroutines of `main` are run under interleaving semantics: a state records where the
dispatcher and every launched task stand, and a schedule picks, step by step, the goroutine
that executes its next statement.  Channel operations are atomic; a goroutine that cannot
move (a send on the full channel, a receive on the empty one, `wg.Wait()` on a non-zero
counter) has no step.  A negative `-c` makes `make(chan int, maxCon)` stop the program before
the loop: such a run has no state at all. -/

/-- Where a lookup task stands in its body `doResolve(line); <-sem; wg.Done()`. -/
inductive Phase
  /-- Launched, `doResolve(line)` (the lookup and its printing) has not returned yet. -/
  | resolving
  /-- The call `doResolve(line)` has returned; the next statement is `<-sem`. -/
  | resolved
  /-- The permit is back (`<-sem` done); the next statement is `wg.Done()`. -/
  | released
  /-- The task has run `wg.Done()` and ended. -/
  | finished
  deriving DecidableEq, Repr

/-- Where the dispatching goroutine (`main`) stands in its loop over the targets. -/
inductive Pc
  /-- At the loop head: the next statement is `sem <- 1` for the next target, if any. -/
  | loop
  /-- After `sem <- 1` for `line`; the next statement is `wg.Add(1)`. -/
  | acquired (line : String)
  /-- After `wg.Add(1)`; the next statement is `go func(line) …`. -/
  | counted (line : String)
  /-- At `wg.Wait()`. -/
  | waiting
  /-- The process has ended (`main` returned, or `log.Fatal` after a read error). -/
  | exited
  deriving DecidableEq, Repr

/-- The input of `main`: the lines of standard input, with whether the scanner ends in an
error, or the targets of the positional argument (the lines of the file, or the argument
itself). -/
inductive Input
  | stdin (lines : List String) (readError : Bool)
  | positional (targets : List String)
  deriving DecidableEq, Repr

/-- The state of the dispatcher and its lookup tasks: the targets not yet dispatched, the
dispatcher's position, the number of values buffered in the channel `sem`, the counter of
`wg`, and the tasks launched so far, in launch order. -/
structure Sched where
  pending : List String
  readError : Bool
  pc : Pc
  sem : Nat
  wg : Int
  tasks : List (String × Phase)
  deriving DecidableEq, Repr

/-- One scheduling decision: which goroutine executes its next statement. -/
inductive Action
  /-- The dispatcher executes its next statement. -/
  | main
  /-- The `i`-th launched task executes its next statement. -/
  | task (i : Nat)
  /-- The dispatcher's `sem <- 1` is paired with the `<-sem` of the `i`-th task, which waits
  on the empty channel: the value is handed over directly (the only way a send completes on
  a channel of capacity 0). -/
  | handoff (i : Nat)
  deriving DecidableEq, Repr

/-- The state when the dispatch loop is entered: nothing dispatched, the channel empty. -/
def enter : Input → Sched
  | .stdin lines readError =>
    { pending := lines, readError := readError, pc := .loop, sem := 0, wg := 0, tasks := [] }
  | .positional targets =>
    { pending := targets, readError := false, pc := .loop, sem := 0, wg := 0, tasks := [] }

/-- The state after `sem := make(chan int, maxCon)` (line 49) when the dispatch loop is
entered; `none` for a negative `maxCon`, with which `make` stops the program. -/
def start (maxCon : Int) (input : Input) : Option Sched :=
  if maxCon < 0 then none else some (enter input)

/-- The next statement of the dispatcher (lines 55-66 and 81-92).  `none`: it is blocked, on
the full channel or in `wg.Wait()`, or it has ended. -/
def stepMain (maxCon : Int) (s : Sched) : Option Sched :=
  match s.pc with
  | .loop =>
    match s.pending with
    | [] => some { s with pc := if s.readError then .exited else .waiting }
    | line :: rest =>
      if (s.sem : Int) < maxCon then
        some { s with pending := rest, pc := .acquired line, sem := s.sem + 1 }
      else none
  | .acquired line => some { s with pc := .counted line, wg := s.wg + 1 }
  | .counted line => some { s with pc := .loop, tasks := s.tasks ++ [(line, .resolving)] }
  | .waiting => if s.wg = 0 then some { s with pc := .exited } else none
  | .exited => none

/-- The next statement of the `i`-th task (lines 58-62 and 84-88).  `none`: there is no such
task, it is blocked on the empty channel, or it has ended. -/
def stepTask (i : Nat) (s : Sched) : Option Sched :=
  match s.tasks[i]? with
  | none => none
  | some (line, .resolving) => some { s with tasks := s.tasks.set i (line, .resolved) }
  | some (line, .resolved) =>
    if s.sem > 0 then some { s with sem := s.sem - 1, tasks := s.tasks.set i (line, .released) }
    else none
  | some (line, .released) =>
    some { s with wg := s.wg - 1, tasks := s.tasks.set i (line, .finished) }
  | some (_, .finished) => none

/-- The direct hand-over of a value from the dispatcher's `sem <- 1` to the `<-sem` of the
`i`-th task, possible when the channel buffer is empty and the task is at its receive. -/
def stepHandoff (i : Nat) (s : Sched) : Option Sched :=
  match s.pc, s.pending, s.tasks[i]? with
  | .loop, line :: rest, some (l, .resolved) =>
    if s.sem = 0 then
      some { s with pending := rest, pc := .acquired line, tasks := s.tasks.set i (l, .released) }
    else none
  | _, _, _ => none

/-- One step of the program under a scheduling decision. -/
def step (maxCon : Int) (a : Action) (s : Sched) : Option Sched :=
  match a with
  | .main => stepMain maxCon s
  | .task i => stepTask i s
  | .handoff i => stepHandoff i s

/-- The state reached from `s` by an interleaving, given as the list of its scheduling
decisions; `none` if some decision picks a goroutine that cannot move. -/
def run (maxCon : Int) : List Action → Sched → Option Sched
  | [], s => some s
  | a :: rest, s =>
    match step maxCon a s with
    | none => none
    | some s' => run maxCon rest s'

/-- The state `main` reaches on `input` with the capacity `maxCon` under the interleaving
`schedule`. -/
def exec (maxCon : Int) (input : Input) (schedule : List Action) : Option Sched :=
  match start maxCon input with
  | none => none
  | some s => run maxCon schedule s

/-- The number of lookups in progress: tasks inside `doResolve`. -/
def active (s : Sched) : Nat :=
  s.tasks.countP (fun t => t.2 == Phase.resolving)

/-- Does a task in this phase hold a permit. -/
def Phase.holdsPermit : Phase → Bool
  | .resolving => true
  | .resolved => true
  | .released => false
  | .finished => false

/-- Does the dispatcher hold a permit for a task it has not launched yet. -/
def Pc.holdsPermit : Pc → Bool
  | .acquired _ => true
  | .counted _ => true
  | _ => false

/-- The number of permits held: by the tasks that have not executed `<-sem` yet and by the
dispatcher between its `sem <- 1` and the launch. -/
def held (s : Sched) : Nat :=
  s.tasks.countP (fun t => t.2.holdsPermit) + (if s.pc.holdsPermit then 1 else 0)

/-- The permit invariant: the values buffered in `sem` are exactly the permits held, and
they never exceed the capacity. -/
def Inv (maxCon : Int) (s : Sched) : Prop :=
  held s = s.sem ∧ (s.sem : Int) ≤ maxCon

/-! # Properties -/

/-! ## The fallback chain -/

section Chain

variable {IP : Type} (net : Net IP)

theorem length_pos_iff_ne_nil {α : Type} (l : List α) : l.length > 0 ↔ l ≠ [] := by
  cases l <;> simp

theorem lookupChain_hit (ipv6 : Bool) (targ : String) (pre : List String) (s : String)
    (post : List String) (nw : String) (lst : List IP)
    (hpre : ∀ x ∈ pre,
      answer (net.ips (Query.lookupIP (x ++ ":53") (if ipv6 then "ip" else nw) targ)) = [])
    (hs : answer (net.ips (Query.lookupIP (s ++ ":53") (if ipv6 then "ip" else nw) targ)) ≠ []) :
    lookupChain net ipv6 targ (pre ++ s :: post) nw lst =
      ((pre ++ [s]).map (fun x => Query.lookupIP (x ++ ":53") (if ipv6 then "ip" else nw) targ),
        answer (net.ips (Query.lookupIP (s ++ ":53") (if ipv6 then "ip" else nw) targ))) := by
  induction pre generalizing nw lst with
  | nil =>
    have h := (length_pos_iff_ne_nil _).mpr hs
    simp only [List.nil_append, lookupChain, List.map_cons, List.map_nil]
    rw [if_pos h]
  | cons a pre ih =>
    have ha := hpre a (List.mem_cons_self _ _)
    have hidem : (if ipv6 then "ip" else (if ipv6 then "ip" else nw)) =
        (if ipv6 then "ip" else nw) := by cases ipv6 <;> simp
    have hrec := ih (if ipv6 then "ip" else nw) []
      (by intro x hx; rw [hidem]; exact hpre x (List.mem_cons_of_mem _ hx))
      (by rw [hidem]; exact hs)
    rw [hidem] at hrec
    rw [List.cons_append, List.cons_append]
    simp only [lookupChain, List.map_cons, ha, List.length_nil,
      gt_iff_lt, lt_self_iff_false, if_false, hrec]

theorem lookupChain_miss (ipv6 : Bool) (targ : String) (l : List String) (nw : String)
    (lst : List IP)
    (hl : ∀ x ∈ l,
      answer (net.ips (Query.lookupIP (x ++ ":53") (if ipv6 then "ip" else nw) targ)) = []) :
    lookupChain net ipv6 targ l nw lst =
      (l.map (fun x => Query.lookupIP (x ++ ":53") (if ipv6 then "ip" else nw) targ),
        if l = [] then lst else []) := by
  induction l generalizing nw lst with
  | nil => simp [lookupChain]
  | cons a l ih =>
    have ha := hl a (List.mem_cons_self _ _)
    have hidem : (if ipv6 then "ip" else (if ipv6 then "ip" else nw)) =
        (if ipv6 then "ip" else nw) := by cases ipv6 <;> simp
    have hrec := ih (if ipv6 then "ip" else nw) []
      (by intro x hx; rw [hidem]; exact hl x (List.mem_cons_of_mem _ hx))
    rw [hidem] at hrec
    simp only [lookupChain, List.map_cons, ha, List.length_nil, gt_iff_lt, lt_self_iff_false,
      if_false, hrec]
    simp

theorem lookupReverseChain_hit (targ : String) (pre : List String) (s : String)
    (post : List String) (lst : List String)
    (hpre : ∀ x ∈ pre, answer (net.names (reverseQuery targ x)) = [])
    (hs : answer (net.names (reverseQuery targ s)) ≠ []) :
    lookupReverseChain net targ (pre ++ s :: post) lst =
      ((pre ++ [s]).map (reverseQuery targ), answer (net.names (reverseQuery targ s))) := by
  induction pre generalizing lst with
  | nil =>
    have h := (length_pos_iff_ne_nil _).mpr hs
    unfold reverseQuery at h
    simp only [List.nil_append, lookupReverseChain, List.map_cons, List.map_nil, reverseQuery]
    rw [if_pos h]
  | cons a pre ih =>
    have ha := hpre a (List.mem_cons_self _ _)
    have hrec := ih [] (fun x hx => hpre x (List.mem_cons_of_mem _ hx))
    unfold reverseQuery at ha
    rw [List.cons_append, List.cons_append]
    simp only [lookupReverseChain, List.map_cons, ha, List.length_nil,
      gt_iff_lt, lt_self_iff_false, if_false, hrec, reverseQuery]

theorem lookupReverseChain_miss (targ : String) (l : List String) (lst : List String)
    (hl : ∀ x ∈ l, answer (net.names (reverseQuery targ x)) = []) :
    lookupReverseChain net targ l lst =
      (l.map (reverseQuery targ), if l = [] then lst else []) := by
  induction l generalizing lst with
  | nil => simp [lookupReverseChain]
  | cons a l ih =>
    have ha := hl a (List.mem_cons_self _ _)
    have hrec := ih [] (fun x hx => hl x (List.mem_cons_of_mem _ hx))
    unfold reverseQuery at ha
    simp only [lookupReverseChain, List.map_cons, ha, List.length_nil, gt_iff_lt,
      lt_self_iff_false, if_false, hrec, reverseQuery]
    simp

end Chain

/-- C1, the claim as stated fails.  The first nameserver returns an error together with one
name: counted as an empty answer it would be passed over for the second server, but
`lookupReverse` sees a non-empty list, stops there, never queries the second server and
prints the first server's name. -/
theorem fallback_chain_error_with_names_counterexample :
    (partialNet.names (reverseQuery "8.8.8.8" "10.0.0.1")).err ≠ none ∧
    specAnswer (partialNet.names (reverseQuery "8.8.8.8" "10.0.0.1")) = [] ∧
    specAnswer (partialNet.names (reverseQuery "8.8.8.8" "10.0.0.2")) = ["full.example.com."] ∧
    lookupReverse partialNet ⟨["10.0.0.1", "10.0.0.2"], false⟩ "8.8.8.8" =
      ⟨[reverseQuery "8.8.8.8" "10.0.0.1"], ["partial.example.com:8.8.8.8"]⟩ ∧
    lookupReverse partialNet ⟨["10.0.0.1", "10.0.0.2"], false⟩ "8.8.8.8" ≠
      ⟨[reverseQuery "8.8.8.8" "10.0.0.1", reverseQuery "8.8.8.8" "10.0.0.2"],
        ["full.example.com:8.8.8.8"]⟩ := by
  decide

/-- C1 as amended.  Fallback chain, first match wins, on the lists the servers return.  With
a non-empty nameserver list, `lookup` and `lookupReverse` query the servers in list order and
stop at the first server whose returned list is non-empty: the queries made are exactly those
to the servers up to and including that one, none after it, and the list obtained and
printed is exactly that server's list.  If every server returns the empty list, every server
is queried once, in order, and the list obtained is empty.  The case of an empty `post` is
the one where only the last server answers.  The error a lookup returns plays no part: the
list counted for a server is the returned slice, which is the answer with errors counted as
empty whenever the lookup returns no error or no entry, so a server that fails without
entries counts as empty and one that returns an error with entries counts as non-empty. -/
theorem fallback_chain_first_match {IP : Type} (net : Net IP) (cfg : Config) (targ : String)
    (hne : cfg.servers ≠ []) :
    (∀ pre s post, cfg.servers = pre ++ s :: post →
      (∀ x ∈ pre, answer (net.ips (forwardQuery cfg.ipv6 targ x)) = []) →
      answer (net.ips (forwardQuery cfg.ipv6 targ s)) ≠ [] →
      lookupResolve net cfg targ =
        ((pre ++ [s]).map (forwardQuery cfg.ipv6 targ),
          answer (net.ips (forwardQuery cfg.ipv6 targ s))) ∧
      lookup net cfg targ =
        ⟨(pre ++ [s]).map (forwardQuery cfg.ipv6 targ),
          lookupPrint net cfg.ipv6 targ (answer (net.ips (forwardQuery cfg.ipv6 targ s)))⟩) ∧
    ((∀ x ∈ cfg.servers, answer (net.ips (forwardQuery cfg.ipv6 targ x)) = []) →
      lookupResolve net cfg targ = (cfg.servers.map (forwardQuery cfg.ipv6 targ), []) ∧
      lookup net cfg targ =
        ⟨cfg.servers.map (forwardQuery cfg.ipv6 targ), lookupPrint net cfg.ipv6 targ []⟩) ∧
    (∀ pre s post, cfg.servers = pre ++ s :: post →
      (∀ x ∈ pre, answer (net.names (reverseQuery targ x)) = []) →
      answer (net.names (reverseQuery targ s)) ≠ [] →
      lookupReverseResolve net cfg targ =
        ((pre ++ [s]).map (reverseQuery targ), answer (net.names (reverseQuery targ s))) ∧
      lookupReverse net cfg targ =
        ⟨(pre ++ [s]).map (reverseQuery targ),
          lookupReversePrint targ (answer (net.names (reverseQuery targ s)))⟩) ∧
    ((∀ x ∈ cfg.servers, answer (net.names (reverseQuery targ x)) = []) →
      lookupReverseResolve net cfg targ = (cfg.servers.map (reverseQuery targ), []) ∧
      lookupReverse net cfg targ =
        ⟨cfg.servers.map (reverseQuery targ), lookupReversePrint targ []⟩) ∧
    (∀ q : Query,
      answer (net.ips q) = (net.ips q).slice ∧ answer (net.names q) = (net.names q).slice ∧
      ((net.ips q).err = none ∨ (net.ips q).slice = [] →
        answer (net.ips q) = specAnswer (net.ips q)) ∧
      ((net.names q).err = none ∨ (net.names q).slice = [] →
        answer (net.names q) = specAnswer (net.names q))) := by
  have hpos : cfg.servers.length > 0 := (length_pos_iff_ne_nil _).mpr hne
  have hspec : ∀ {α : Type} (r : Reply α), r.err = none ∨ r.slice = [] →
      answer r = specAnswer r := by
    intro α r h
    obtain ⟨sl, e⟩ := r
    cases e with
    | none => rfl
    | some msg =>
      rcases h with h | h
      · cases h
      · simp only at h
        simp only [answer, specAnswer, h]
  refine ⟨?_, ?_, ?_, ?_, fun q => ⟨rfl, rfl, hspec _, hspec _⟩⟩
  · intro pre s post hsplit hpre hs
    have h : lookupResolve net cfg targ =
        ((pre ++ [s]).map (forwardQuery cfg.ipv6 targ),
          answer (net.ips (forwardQuery cfg.ipv6 targ s))) := by
      unfold lookupResolve
      rw [if_pos hpos, hsplit]
      exact lookupChain_hit net cfg.ipv6 targ pre s post "ip4" [] hpre hs
    exact ⟨h, by simp only [lookup, h]⟩
  · intro hall
    have h : lookupResolve net cfg targ =
        (cfg.servers.map (forwardQuery cfg.ipv6 targ), []) := by
      unfold lookupResolve
      rw [if_pos hpos, lookupChain_miss net cfg.ipv6 targ cfg.servers "ip4" [] hall]
      simp [forwardQuery]
    exact ⟨h, by simp only [lookup, h]⟩
  · intro pre s post hsplit hpre hs
    have h : lookupReverseResolve net cfg targ =
        ((pre ++ [s]).map (reverseQuery targ), answer (net.names (reverseQuery targ s))) := by
      unfold lookupReverseResolve
      rw [if_pos hpos, hsplit]
      exact lookupReverseChain_hit net targ pre s post [] hpre hs
    exact ⟨h, by simp only [lookupReverse, h]⟩
  · intro hall
    have h : lookupReverseResolve net cfg targ = (cfg.servers.map (reverseQuery targ), []) := by
      unfold lookupReverseResolve
      rw [if_pos hpos, lookupReverseChain_miss net targ cfg.servers [] hall]
      simp
    exact ⟨h, by simp only [lookupReverse, h]⟩

/-- The witness of C1: with the nameservers `10.0.0.1`, `10.0.0.2`, `10.0.0.3`, the forward
lookup passes the empty and the failing server and falls through to the last one; the
reverse lookup stops at the second; and a first server that returns an error together with
a name is where the reverse lookup stops. -/
theorem fallback_chain_first_match_witness :
    lookup demoNet ⟨["10.0.0.1", "10.0.0.2", "10.0.0.3"], false⟩ "example.com" =
      ⟨[Query.lookupIP "10.0.0.1:53" "ip4" "example.com",
        Query.lookupIP "10.0.0.2:53" "ip4" "example.com",
        Query.lookupIP "10.0.0.3:53" "ip4" "example.com"],
        ["example.com:93.184.216.34"]⟩ ∧
    lookupReverse demoNet ⟨["10.0.0.1", "10.0.0.2", "10.0.0.3"], false⟩ "8.8.8.8" =
      ⟨[Query.lookupAddr "10.0.0.1:53" "8.8.8.8", Query.lookupAddr "10.0.0.2:53" "8.8.8.8"],
        ["host.example.com:8.8.8.8"]⟩ ∧
    lookupReverse partialNet ⟨["10.0.0.1", "10.0.0.2"], false⟩ "8.8.8.8" =
      ⟨[Query.lookupAddr "10.0.0.1:53" "8.8.8.8"], ["partial.example.com:8.8.8.8"]⟩ :=
  ⟨((fallback_chain_first_match demoNet ⟨["10.0.0.1", "10.0.0.2", "10.0.0.3"], false⟩
      "example.com" (by decide)).1 ["10.0.0.1", "10.0.0.2"] "10.0.0.3" [] rfl
      (by decide) (by decide)).2,
   ((fallback_chain_first_match demoNet ⟨["10.0.0.1", "10.0.0.2", "10.0.0.3"], false⟩
      "8.8.8.8" (by decide)).2.2.1 ["10.0.0.1"] "10.0.0.2" ["10.0.0.3"] rfl
      (by decide) (by decide)).2,
   ((fallback_chain_first_match partialNet ⟨["10.0.0.1", "10.0.0.2"], false⟩
      "8.8.8.8" (by decide)).2.2.1 [] "10.0.0.1" ["10.0.0.2"] rfl
      (by decide) (by decide)).2⟩

/-! ## Printing -/

theorem containsGo_singleton (c : Char) (l : List Char) :
    containsGo [c] l = true ↔ c ∈ l := by
  induction l with
  | nil => simp [containsGo, List.isPrefixOf]
  | cons d ds ih =>
    simp only [containsGo, List.isPrefixOf, Bool.and_true, Bool.or_eq_true, beq_iff_eq, ih,
      List.mem_cons]

theorem contains_colon_iff (s : String) : Contains s ":" = true ↔ ':' ∈ s.data := by
  unfold Contains
  exact containsGo_singleton ':' s.data

theorem lookupPrintLoop_eq {IP : Type} (net : Net IP) (ipv6 : Bool) (targ : String)
    (lst : List IP) :
    lookupPrintLoop net ipv6 targ lst =
      (lst.filter (fun i => ipv6 || !Contains (net.ipString i) ":")).map
        (fun i => targ ++ ":" ++ net.ipString i) := by
  induction lst with
  | nil => rfl
  | cons i rest ih =>
    unfold lookupPrintLoop
    cases ipv6 <;> cases h : Contains (net.ipString i) ":" <;> simp [List.filter, h, ih]

theorem lookupReversePrintLoop_eq (targ : String) (lst : List String) :
    lookupReversePrintLoop targ lst = lst.map (fun name => TrimRight name "." ++ ":" ++ targ) := by
  induction lst with
  | nil => rfl
  | cons i rest ih => simp [lookupReversePrintLoop, ih]

/-- C2, the code at the failing input.  With IPv6 inclusion disabled and the platform resolver
in use, a name known by an IPv6 address only gets a non-empty list from the resolver; every
address is then dropped by the filter, and `lookup` prints no line at all: the bare
`v6only.example:` line is missing although no address remains. -/
theorem lookup_ipv6_only_prints_nothing :
    lookupResolve demoNet ⟨[], false⟩ "v6only.example" =
      ([Query.sysLookupIP "v6only.example"], ["2001:db8::1"]) ∧
    (["2001:db8::1"].filter (fun a => !Contains (demoNet.ipString a) ":")) = [] ∧
    (lookup demoNet ⟨[], false⟩ "v6only.example").out = [] ∧
    (lookup demoNet ⟨[], false⟩ "v6only.example").out ≠ ["v6only.example:"] := by
  decide

/-- C5. IPv4-only output filter: with IPv6 inclusion disabled, whatever the resolver returns
(platform resolver or custom chain), every line printed by `lookup` is the target, a `:`, and
an address field in which no colon occurs. -/
theorem lookup_ipv4_only_no_colon {IP : Type} (net : Net IP) (cfg : Config) (targ : String)
    (hv6 : cfg.ipv6 = false) :
    ∀ line ∈ (lookup net cfg targ).out,
      ∃ addr : String, line = targ ++ ":" ++ addr ∧ ':' ∉ addr.data ∧
        Contains addr ":" = false := by
  intro line hline
  simp only [lookup, lookupPrint] at hline
  split at hline
  · refine ⟨"", ?_, by decide, by decide⟩
    rw [List.mem_singleton] at hline
    rw [hline]
    apply String.ext
    simp
  · rw [lookupPrintLoop_eq, List.mem_map] at hline
    obtain ⟨i, hi, rfl⟩ := hline
    rw [List.mem_filter, hv6] at hi
    have hc : Contains (net.ipString i) ":" = false := by simpa using hi.2
    refine ⟨net.ipString i, rfl, ?_, hc⟩
    intro hmem
    rw [← contains_colon_iff, hc] at hmem
    exact Bool.false_ne_true hmem

/-- The witness of C5: the platform resolver returns an IPv4 and an IPv6 address, and only the
IPv4 line is printed. -/
theorem lookup_ipv4_only_no_colon_witness :
    (lookup demoNet ⟨[], false⟩ "example.com").out = ["example.com:93.184.216.34"] ∧
    ∀ line ∈ (lookup demoNet ⟨[], false⟩ "example.com").out,
      ∃ addr : String, line = "example.com" ++ ":" ++ addr ∧ ':' ∉ addr.data ∧
        Contains addr ":" = false :=
  ⟨by decide, lookup_ipv4_only_no_colon demoNet ⟨[], false⟩ "example.com" rfl⟩

/-! ## Reverse-lookup names -/

theorem getLast?_ne_dot_iff (l : List Char) :
    l.getLast? ≠ some '.' ↔ ∀ hl : l ≠ [], l.getLast hl ≠ '.' := by
  constructor
  · intro h hl hlast
    apply h
    rw [List.getLast?_eq_getLast l hl, hlast]
  · intro h hsome
    have hl : l ≠ [] := by
      intro hnil
      rw [hnil] at hsome
      simp at hsome
    rw [List.getLast?_eq_getLast l hl] at hsome
    exact h hl (Option.some.inj hsome)

theorem rdropWhile_dot_append_replicate (b : List Char) (k : Nat)
    (hb : b.getLast? ≠ some '.') :
    (b ++ List.replicate k '.').rdropWhile (fun c => ['.'].contains c) = b := by
  induction k with
  | zero =>
    rw [List.replicate_zero, List.append_nil, List.rdropWhile_eq_self_iff]
    intro hl
    have h := (getLast?_ne_dot_iff b).mp hb hl
    simpa using h
  | succ k ih =>
    rw [List.replicate_succ', ← List.append_assoc, List.rdropWhile_concat_pos _ _ _ (by simp)]
    exact ih

theorem trimRight_dot_append_dots (base : String) (k : Nat)
    (hbase : base.data.getLast? ≠ some '.') :
    TrimRight (base ++ dots k) "." = base := by
  apply String.ext
  simp only [TrimRight, dots, String.data_append]
  exact rdropWhile_dot_append_replicate base.data k hbase

theorem eq_nil_or_snoc {α : Type} (l : List α) :
    l = [] ∨ ∃ (l1 : List α) (a : α), l = l1 ++ [a] := by
  rcases List.eq_nil_or_concat l with h | ⟨l1, a, h⟩
  · exact Or.inl h
  · exact Or.inr ⟨l1, a, by rw [h, List.concat_eq_append]⟩

theorem trimRight_eq_specStripDot (name : String) (h : endsInTwoDots name = false) :
    TrimRight name "." = specStripDot name := by
  obtain ⟨l⟩ := name
  rcases eq_nil_or_snoc l with rfl | ⟨l1, a, rfl⟩
  · decide
  · by_cases ha : a = '.'
    · subst ha
      have hb : l1.getLast? ≠ some '.' := by
        rcases eq_nil_or_snoc l1 with rfl | ⟨l2, b, rfl⟩
        · simp
        · intro hlast
          have hbdot : b = '.' := by simpa using hlast
          subst hbdot
          simp [endsInTwoDots] at h
      have ht := rdropWhile_dot_append_replicate l1 1 hb
      apply String.ext
      simp only [TrimRight, specStripDot, List.reverse_append, List.reverse_cons,
        List.reverse_nil, List.nil_append, List.singleton_append, List.reverse_reverse]
      simpa using ht
    · have hb : (l1 ++ [a]).getLast? ≠ some '.' := by simp [ha]
      have ht := rdropWhile_dot_append_replicate (l1 ++ [a]) 0 hb
      apply String.ext
      have hspec : specStripDot ⟨l1 ++ [a]⟩ = ⟨l1 ++ [a]⟩ := by
        unfold specStripDot
        simp only [List.reverse_append, List.reverse_cons, List.reverse_nil, List.nil_append,
          List.singleton_append]
        split
        · rename_i rest heq
          exact absurd (List.cons.inj heq).1 ha
        · rfl
      rw [hspec]
      simpa [TrimRight] using ht

theorem lookupReversePrint_eq (targ : String) (names : List String) :
    lookupReversePrint targ names =
      (if names = [] then [":" ++ targ]
       else names.map (fun name => TrimRight name "." ++ ":" ++ targ)) := by
  unfold lookupReversePrint
  rw [lookupReversePrintLoop_eq]
  simp only [List.length_eq_zero]

theorem lookupReverseResolve_sys {IP : Type} (net : Net IP) (cfg : Config) (targ : String)
    (h : cfg.servers = []) :
    lookupReverseResolve net cfg targ =
      ([Query.sysLookupAddr targ], answer (net.names (Query.sysLookupAddr targ))) := by
  unfold lookupReverseResolve
  rw [h]
  rfl

theorem lookupReverseResolve_hit {IP : Type} (net : Net IP) (cfg : Config) (targ : String)
    (pre : List String) (s : String) (post : List String)
    (hsplit : cfg.servers = pre ++ s :: post)
    (hpre : ∀ x ∈ pre, answer (net.names (reverseQuery targ x)) = [])
    (hs : answer (net.names (reverseQuery targ s)) ≠ []) :
    lookupReverseResolve net cfg targ =
      ((pre ++ [s]).map (reverseQuery targ), answer (net.names (reverseQuery targ s))) := by
  have hpos : cfg.servers.length > 0 := by rw [hsplit]; simp
  unfold lookupReverseResolve
  rw [if_pos hpos, hsplit]
  exact lookupReverseChain_hit net targ pre s post [] hpre hs

theorem lookupReverseResolve_miss {IP : Type} (net : Net IP) (cfg : Config) (targ : String)
    (hne : cfg.servers ≠ [])
    (hall : ∀ x ∈ cfg.servers, answer (net.names (reverseQuery targ x)) = []) :
    lookupReverseResolve net cfg targ = (cfg.servers.map (reverseQuery targ), []) := by
  have hpos : cfg.servers.length > 0 := (length_pos_iff_ne_nil _).mpr hne
  unfold lookupReverseResolve
  rw [if_pos hpos, lookupReverseChain_miss net targ cfg.servers [] hall]
  simp [hne]

/-- C3. Reverse-lookup name formatting.  Let `names` be the list the resolver returns, in
which no name ends in two dots (`LookupAddr` returns validated domain names only).  Every
name of the list is printed by `lookupReverse` with exactly one trailing `.` removed if it
ends in `.` and unchanged otherwise: the lines printed are `:target` for the empty list and
otherwise one line per name made of the name so stripped, `:` and the target, on the
platform-resolver path and on the custom-chain path alike.  For a `base` that does not end
in `.`, both `base.` and `base` are printed as `base`. -/
theorem reverse_name_one_trailing_dot_stripped {IP : Type} (net : Net IP) (cfg : Config)
    (targ : String) (names : List String)
    (hvalid : ∀ name ∈ names, endsInTwoDots name = false) :
    (∀ name ∈ names, TrimRight name "." = specStripDot name) ∧
    lookupReversePrint targ names =
      (if names = [] then [":" ++ targ]
       else names.map (fun name => specStripDot name ++ ":" ++ targ)) ∧
    (cfg.servers = [] → answer (net.names (Query.sysLookupAddr targ)) = names →
      (lookupReverse net cfg targ).out =
        (if names = [] then [":" ++ targ]
         else names.map (fun name => specStripDot name ++ ":" ++ targ))) ∧
    (∀ pre s post, cfg.servers = pre ++ s :: post →
      (∀ x ∈ pre, answer (net.names (reverseQuery targ x)) = []) →
      answer (net.names (reverseQuery targ s)) = names → names ≠ [] →
      (lookupReverse net cfg targ).out =
        names.map (fun name => specStripDot name ++ ":" ++ targ)) ∧
    (∀ base : String, base.data.getLast? ≠ some '.' →
      endsInTwoDots (base ++ ".") = false ∧ endsInTwoDots base = false ∧
      specStripDot (base ++ ".") = base ∧ specStripDot base = base ∧
      TrimRight (base ++ ".") "." = base ∧ TrimRight base "." = base) := by
  have hstrip : ∀ name ∈ names, TrimRight name "." = specStripDot name :=
    fun name hn => trimRight_eq_specStripDot name (hvalid name hn)
  have hmap : names.map (fun name => TrimRight name "." ++ ":" ++ targ) =
      names.map (fun name => specStripDot name ++ ":" ++ targ) := by
    apply List.map_congr_left
    intro name hn
    rw [hstrip name hn]
  have hprint : lookupReversePrint targ names =
      (if names = [] then [":" ++ targ]
       else names.map (fun name => specStripDot name ++ ":" ++ targ)) := by
    rw [lookupReversePrint_eq, hmap]
  refine ⟨hstrip, hprint, ?_, ?_, ?_⟩
  · intro hsys hnames
    simp only [lookupReverse, lookupReverseResolve_sys net cfg targ hsys, hnames, hprint]
  · intro pre s post hsplit hpre hs hne
    have hres := lookupReverseResolve_hit net cfg targ pre s post hsplit hpre (by rw [hs]; exact hne)
    simp only [lookupReverse, hres, hs, hprint, if_neg hne]
  · intro base hbase
    have h1 := trimRight_dot_append_dots base 1 hbase
    have h0 := trimRight_dot_append_dots base 0 hbase
    have e1 : base ++ dots 1 = base ++ "." := rfl
    have e0 : base ++ dots 0 = base := by
      apply String.ext
      simp [dots]
    rw [e1] at h1
    rw [e0] at h0
    have hd1 : endsInTwoDots (base ++ ".") = false := by
      obtain ⟨l⟩ := base
      rcases eq_nil_or_snoc l with rfl | ⟨l1, a, rfl⟩
      · decide
      · have ha : a ≠ '.' := by simpa using hbase
        have happ : (⟨l1 ++ [a]⟩ ++ "." : String).data = l1 ++ [a] ++ ['.'] := by
          simp [String.data_append]
        unfold endsInTwoDots
        rw [happ]
        simp only [List.reverse_append, List.reverse_cons, List.reverse_nil, List.nil_append,
          List.singleton_append]
        split
        · rename_i rest heq
          exact absurd (List.cons.inj (List.cons.inj heq).2).1 ha
        · rfl
    have hd0 : endsInTwoDots base = false := by
      obtain ⟨l⟩ := base
      rcases eq_nil_or_snoc l with rfl | ⟨l1, a, rfl⟩
      · decide
      · have ha : a ≠ '.' := by simpa using hbase
        unfold endsInTwoDots
        simp only [List.reverse_append, List.reverse_cons, List.reverse_nil, List.nil_append,
          List.singleton_append]
        split
        · rename_i rest heq
          exact absurd (List.cons.inj heq).1 ha
        · rfl
    exact ⟨hd1, hd0, (trimRight_eq_specStripDot _ hd1).symm.trans h1,
      (trimRight_eq_specStripDot _ hd0).symm.trans h0, h1, h0⟩

/-- The witness of C3: the platform resolver returns `dns.google.` and the second nameserver
of a chain returns `host.example.com.`; each is printed without its trailing dot. -/
theorem reverse_name_one_trailing_dot_stripped_witness :
    (lookupReverse demoNet ⟨[], false⟩ "8.8.8.8").out = ["dns.google:8.8.8.8"] ∧
    (lookupReverse demoNet ⟨["10.0.0.1", "10.0.0.2"], false⟩ "8.8.8.8").out =
      ["host.example.com:8.8.8.8"] ∧
    lookupReversePrint "8.8.8.8" ["host.example.com", "host.example.com."] =
      ["host.example.com:8.8.8.8", "host.example.com:8.8.8.8"] :=
  ⟨(reverse_name_one_trailing_dot_stripped demoNet ⟨[], false⟩ "8.8.8.8" ["dns.google."]
      (by decide)).2.2.1 rfl rfl,
   (reverse_name_one_trailing_dot_stripped demoNet ⟨["10.0.0.1", "10.0.0.2"], false⟩
      "8.8.8.8" ["host.example.com."] (by decide)).2.2.2.1 ["10.0.0.1"] "10.0.0.2" [] rfl
      (by decide) rfl (by decide),
   (reverse_name_one_trailing_dot_stripped demoNet ⟨[], false⟩ "8.8.8.8"
      ["host.example.com", "host.example.com."] (by decide)).2.1⟩

/-- C7. Reverse output is independent of the IPv6 flag and complete: for both values of the
flag `lookupReverse` behaves the same.  With the platform resolver, the names it returns for
the target are printed one per line as `name:target` (trailing dots stripped by
`TrimRight`), in the returned order and with no name dropped, whether or not it contains a
colon, and the single line `:target` is printed when it returns none.  With custom
nameservers the same holds of the names returned by the first server that returns any, and
the single line `:target` is printed when every server returns none. -/
theorem lookupReverse_output_flag_independent {IP : Type} (net : Net IP)
    (servers : List String) (targ : String) (ipv6 : Bool) :
    lookupReverse net ⟨servers, ipv6⟩ targ = lookupReverse net ⟨servers, !ipv6⟩ targ ∧
    (servers = [] →
      (lookupReverse net ⟨servers, ipv6⟩ targ).out =
        (if answer (net.names (Query.sysLookupAddr targ)) = [] then [":" ++ targ]
         else (answer (net.names (Query.sysLookupAddr targ))).map
           (fun name => TrimRight name "." ++ ":" ++ targ)) ∧
      (lookupReverse net ⟨servers, ipv6⟩ targ).out.length =
        max 1 (answer (net.names (Query.sysLookupAddr targ))).length) ∧
    (∀ pre s post, servers = pre ++ s :: post →
      (∀ x ∈ pre, answer (net.names (reverseQuery targ x)) = []) →
      answer (net.names (reverseQuery targ s)) ≠ [] →
      (lookupReverse net ⟨servers, ipv6⟩ targ).out =
        (answer (net.names (reverseQuery targ s))).map
          (fun name => TrimRight name "." ++ ":" ++ targ) ∧
      (lookupReverse net ⟨servers, ipv6⟩ targ).out.length =
        (answer (net.names (reverseQuery targ s))).length) ∧
    (servers ≠ [] → (∀ x ∈ servers, answer (net.names (reverseQuery targ x)) = []) →
      (lookupReverse net ⟨servers, ipv6⟩ targ).out = [":" ++ targ]) ∧
    (∀ names : List String,
      lookupReversePrint targ names =
        (if names = [] then [":" ++ targ]
         else names.map (fun name => TrimRight name "." ++ ":" ++ targ))) := by
  refine ⟨rfl, ?_, ?_, ?_, lookupReversePrint_eq targ⟩
  · intro hsys
    have hout : (lookupReverse net ⟨servers, ipv6⟩ targ).out =
        (if answer (net.names (Query.sysLookupAddr targ)) = [] then [":" ++ targ]
         else (answer (net.names (Query.sysLookupAddr targ))).map
           (fun name => TrimRight name "." ++ ":" ++ targ)) := by
      simp only [lookupReverse, lookupReverseResolve_sys net ⟨servers, ipv6⟩ targ hsys,
        lookupReversePrint_eq]
    refine ⟨hout, ?_⟩
    rw [hout]
    cases answer (net.names (Query.sysLookupAddr targ)) with
    | nil => rfl
    | cons a l => simp
  · intro pre s post hsplit hpre hs
    have hres := lookupReverseResolve_hit net ⟨servers, ipv6⟩ targ pre s post hsplit hpre hs
    have hout : (lookupReverse net ⟨servers, ipv6⟩ targ).out =
        (answer (net.names (reverseQuery targ s))).map
          (fun name => TrimRight name "." ++ ":" ++ targ) := by
      simp only [lookupReverse, hres, lookupReversePrint_eq, if_neg hs]
    exact ⟨hout, by rw [hout, List.length_map]⟩
  · intro hne hall
    have hres := lookupReverseResolve_miss net ⟨servers, ipv6⟩ targ hne hall
    simp only [lookupReverse, hres, lookupReversePrint_eq, if_true]

/-- The witness of C7: with either value of the flag, the name returned by the platform
resolver and the name returned by the second nameserver of a chain are printed, and a chain
whose servers all return nothing prints the bare line. -/
theorem lookupReverse_output_flag_independent_witness :
    (lookupReverse demoNet ⟨[], true⟩ "2001:db8::1").out = ["dns.google:2001:db8::1"] ∧
    (lookupReverse demoNet ⟨["10.0.0.1", "10.0.0.2", "10.0.0.3"], false⟩ "8.8.8.8").out =
      ["host.example.com:8.8.8.8"] ∧
    (lookupReverse demoNet ⟨["10.0.0.1", "10.0.0.4"], true⟩ "8.8.8.8").out = [":8.8.8.8"] :=
  ⟨((lookupReverse_output_flag_independent demoNet [] "2001:db8::1" true).2.1 rfl).1,
   ((lookupReverse_output_flag_independent demoNet ["10.0.0.1", "10.0.0.2", "10.0.0.3"]
      "8.8.8.8" false).2.2.1 ["10.0.0.1"] "10.0.0.2" ["10.0.0.3"] rfl
      (by decide) (by decide)).1,
   (lookupReverse_output_flag_independent demoNet ["10.0.0.1", "10.0.0.4"]
      "8.8.8.8" true).2.2.2.1 (by decide) (by decide)⟩

/-! ## Classification -/

theorem lookupChain_queries {IP : Type} (net : Net IP) (ipv6 : Bool) (targ : String)
    (l : List String) (nw : String) (lst : List IP) :
    (lookupChain net ipv6 targ l nw lst).1 <+:
      l.map (fun x => Query.lookupIP (x ++ ":53") (if ipv6 then "ip" else nw) targ) ∧
    (l ≠ [] → (lookupChain net ipv6 targ l nw lst).1 ≠ []) := by
  induction l generalizing nw lst with
  | nil => simp [lookupChain]
  | cons a l ih =>
    have hidem : (if ipv6 then "ip" else (if ipv6 then "ip" else nw)) =
        (if ipv6 then "ip" else nw) := by cases ipv6 <;> simp
    have hrec := (ih (if ipv6 then "ip" else nw)
      (answer (net.ips (Query.lookupIP (a ++ ":53") (if ipv6 then "ip" else nw) targ)))).1
    rw [hidem] at hrec
    simp only [lookupChain, List.map_cons]
    by_cases hl : (answer (net.ips
        (Query.lookupIP (a ++ ":53") (if ipv6 then "ip" else nw) targ))).length > 0
    · rw [if_pos hl]
      exact ⟨by simp [List.prefix_cons_inj, List.nil_prefix], by simp⟩
    · rw [if_neg hl]
      exact ⟨by simpa [List.prefix_cons_inj] using hrec, by simp⟩

theorem lookupReverseChain_queries {IP : Type} (net : Net IP) (targ : String)
    (l : List String) (lst : List String) :
    (lookupReverseChain net targ l lst).1 <+: l.map (reverseQuery targ) ∧
    (l ≠ [] → (lookupReverseChain net targ l lst).1 ≠ []) := by
  induction l generalizing lst with
  | nil => simp [lookupReverseChain]
  | cons a l ih =>
    have hrec := (ih (answer (net.names (Query.lookupAddr (a ++ ":53") targ)))).1
    simp only [lookupReverseChain, List.map_cons, reverseQuery]
    by_cases hl : (answer (net.names (Query.lookupAddr (a ++ ":53") targ))).length > 0
    · rw [if_pos hl]
      exact ⟨by simp [List.prefix_cons_inj, List.nil_prefix], by simp⟩
    · rw [if_neg hl]
      exact ⟨by simpa [List.prefix_cons_inj, reverseQuery] using hrec, by simp⟩

theorem lookup_queries {IP : Type} (net : Net IP) (cfg : Config) (targ : String) :
    (lookup net cfg targ).queries ≠ [] ∧
    (cfg.servers ≠ [] →
      (lookup net cfg targ).queries <+: cfg.servers.map (forwardQuery cfg.ipv6 targ)) ∧
    (cfg.servers = [] → (lookup net cfg targ).queries = [Query.sysLookupIP targ]) := by
  simp only [lookup, lookupResolve]
  by_cases h : cfg.servers = []
  · simp [h]
  · have hpos : cfg.servers.length > 0 := (length_pos_iff_ne_nil _).mpr h
    rw [if_pos hpos]
    have hq := lookupChain_queries net cfg.ipv6 targ cfg.servers "ip4" []
    exact ⟨hq.2 h, fun _ => hq.1, fun h0 => absurd h0 h⟩

theorem lookupReverse_queries {IP : Type} (net : Net IP) (cfg : Config) (targ : String) :
    (lookupReverse net cfg targ).queries ≠ [] ∧
    (cfg.servers ≠ [] →
      (lookupReverse net cfg targ).queries <+: cfg.servers.map (reverseQuery targ)) ∧
    (cfg.servers = [] → (lookupReverse net cfg targ).queries = [Query.sysLookupAddr targ]) := by
  simp only [lookupReverse, lookupReverseResolve]
  by_cases h : cfg.servers = []
  · simp [h]
  · have hpos : cfg.servers.length > 0 := (length_pos_iff_ne_nil _).mpr h
    rw [if_pos hpos]
    have hq := lookupReverseChain_queries net targ cfg.servers []
    exact ⟨hq.2 h, fun _ => hq.1, fun h0 => absurd h0 h⟩

theorem lookup_queries_forward {IP : Type} (net : Net IP) (cfg : Config) (targ : String) :
    ∀ q ∈ (lookup net cfg targ).queries, q.isForward = true := by
  intro q hq
  obtain ⟨_, hcustom, hsys⟩ := lookup_queries net cfg targ
  by_cases h : cfg.servers = []
  · rw [hsys h, List.mem_singleton] at hq
    rw [hq]; rfl
  · have hmem := (hcustom h).subset hq
    rw [List.mem_map] at hmem
    obtain ⟨srv, _, rfl⟩ := hmem
    rfl

theorem lookupReverse_queries_reverse {IP : Type} (net : Net IP) (cfg : Config)
    (targ : String) :
    ∀ q ∈ (lookupReverse net cfg targ).queries, q.isForward = false := by
  intro q hq
  obtain ⟨_, hcustom, hsys⟩ := lookupReverse_queries net cfg targ
  by_cases h : cfg.servers = []
  · rw [hsys h, List.mem_singleton] at hq
    rw [hq]; rfl
  · have hmem := (hcustom h).subset hq
    rw [List.mem_map] at hmem
    obtain ⟨srv, _, rfl⟩ := hmem
    rfl

theorem lookup_ne_lookupReverse {IP : Type} (net : Net IP) (cfg : Config) (targ : String) :
    lookup net cfg targ ≠ lookupReverse net cfg targ := by
  intro heq
  have hne := (lookup_queries net cfg targ).1
  obtain ⟨q, hq⟩ := List.exists_mem_of_ne_nil _ hne
  have h1 := lookup_queries_forward net cfg targ q hq
  rw [heq] at hq
  have h2 := lookupReverse_queries_reverse net cfg targ q hq
  rw [h1] at h2
  exact Bool.noConfusion h2

/-- C6. Lookup classification: `doResolve` takes the reverse path `lookupReverse` exactly when
`net.ParseIP` accepts the target, which is what `isIPAddress` tests, and the forward path
`lookup` for every other string.  The two paths never coincide (one makes forward queries
only, the other reverse queries only, and each makes at least one), so exactly one of them is
taken. -/
theorem doResolve_classification {IP : Type} (net : Net IP) (cfg : Config) (targ : String) :
    (isIPAddress net targ = true ↔ net.ParseIP targ ≠ none) ∧
    (doResolve net cfg targ = lookupReverse net cfg targ ↔ net.ParseIP targ ≠ none) ∧
    (doResolve net cfg targ = lookup net cfg targ ↔ net.ParseIP targ = none) ∧
    lookup net cfg targ ≠ lookupReverse net cfg targ ∧
    ((∀ q ∈ (doResolve net cfg targ).queries, q.isForward = false) ↔
      net.ParseIP targ ≠ none) := by
  have hne := lookup_ne_lookupReverse net cfg targ
  have hfw := lookup_queries_forward net cfg targ
  have hrv := lookupReverse_queries_reverse net cfg targ
  have hq := (lookup_queries net cfg targ).1
  unfold doResolve isIPAddress
  cases h : net.ParseIP targ with
  | none =>
    refine ⟨by simp, by simpa using hne, by simp, hne, ?_⟩
    simp only [Bool.false_eq_true, if_false, ne_eq, not_true_eq_false, iff_false]
    intro hall
    obtain ⟨q, hmem⟩ := List.exists_mem_of_ne_nil _ hq
    have h1 := hfw q hmem
    rw [hall q hmem] at h1
    exact Bool.noConfusion h1
  | some ip =>
    refine ⟨by simp, by simp, ?_, hne, by simpa using hrv⟩
    simp only [if_true, reduceCtorEq, iff_false]
    exact fun heq => hne heq.symm

/-! ## Nameserver parsing -/

theorem replaceGo_space (l : List Char) :
    replaceGo [' '] [] 0 l = l.filter (fun c => c != ' ') := by
  induction l with
  | nil => simp [replaceGo]
  | cons c cs ih =>
    by_cases hc : c = ' '
    · subst hc
      simp [replaceGo, List.isPrefixOf, ih]
    · have hc2 : ¬ ' ' = c := fun h => hc h.symm
      simp [replaceGo, List.isPrefixOf, ih, hc, hc2]

theorem replaceAll_space (s : String) :
    ReplaceAll s " " "" = ⟨s.data.filter (fun c => c != ' ')⟩ := by
  unfold ReplaceAll
  exact congrArg String.mk (replaceGo_space s.data)

theorem splitGo_comma_length (cur l : List Char) :
    (splitGo [','] 0 cur l).length = l.count ',' + 1 := by
  induction l generalizing cur with
  | nil => simp [splitGo]
  | cons c cs ih =>
    by_cases hc : c = ','
    · subst hc
      simp [splitGo, List.isPrefixOf, ih]
    · have hc2 : ¬ ',' = c := fun h => hc h.symm
      have hc3 : (c == ',') = false := by simpa using hc
      simp [splitGo, List.isPrefixOf, ih, hc2, List.count_cons, hc3]

theorem split_comma_length (s : String) :
    (Split s ",").length = s.data.count ',' + 1 := by
  unfold Split
  rw [if_neg (by decide)]
  exact splitGo_comma_length [] s.data

theorem parseServers_of_ne (raw : String) (h : raw ≠ "") :
    parseServers raw = Split ⟨raw.data.filter (fun c => c != ' ')⟩ "," := by
  unfold parseServers
  rw [if_pos h, replaceAll_space]

theorem parseServers_length (raw : String) (h : raw ≠ "") :
    (parseServers raw).length = (raw.data.filter (fun c => c != ' ')).count ',' + 1 := by
  rw [parseServers_of_ne raw h, split_comma_length]

/-- C4, the claim as stated fails.  A tab in the raw `-s` string is kept by the program, which
removes spaces only: the second nameserver keeps its leading tab, while stripping all
whitespace before splitting would give `8.8.8.8`. -/
theorem parseServers_tab_counterexample :
    parseServers "1.1.1.1,\t8.8.8.8" = ["1.1.1.1", "\t8.8.8.8"] ∧
    specParseServers "1.1.1.1,\t8.8.8.8" = ["1.1.1.1", "8.8.8.8"] ∧
    parseServers "1.1.1.1,\t8.8.8.8" ≠ specParseServers "1.1.1.1,\t8.8.8.8" := by
  decide

/-- C4 as amended.  For a non-empty raw `-s` string the nameserver list is the result of
removing the space characters (U+0020 only: tabs and other whitespace stay) and then
splitting on commas; for the empty raw string the list is empty and the platform resolver is
the strategy: `lookup` and `lookupReverse` each make their single query to it. -/
theorem parseServers_removes_spaces_then_splits (raw : String) :
    parseServers raw =
      (if raw = "" then [] else Split ⟨raw.data.filter (fun c => c != ' ')⟩ ",") ∧
    parseServers "" = [] ∧
    useCustom (parseServers "") = false ∧
    (∀ {IP : Type} (net : Net IP) (ipv6 : Bool) (targ : String),
      (lookup net ⟨parseServers "", ipv6⟩ targ).queries = [Query.sysLookupIP targ] ∧
      (lookupReverse net ⟨parseServers "", ipv6⟩ targ).queries =
        [Query.sysLookupAddr targ]) := by
  refine ⟨?_, by decide, by decide, fun net ipv6 targ => ⟨rfl, rfl⟩⟩
  by_cases h : raw = ""
  · rw [if_pos h, h]; decide
  · rw [if_neg h, parseServers_of_ne raw h]

/-- C10. For every non-empty raw `-s` string the parsed nameserver list is not empty: it has
one entry more than there are commas in the string once its spaces are removed.  The custom
chain is then used: every query of `lookup` and `lookupReverse` goes to a server of the list
and at least one is made.  Entries may be empty strings: a single space parses to one
empty-named server and `1.1.1.1,` to `1.1.1.1` followed by an empty-named server.  The
platform resolver is selected only when the raw string is exactly empty. -/
theorem parseServers_nonempty_of_nonempty (raw : String) (hraw : raw ≠ "") :
    parseServers raw ≠ [] ∧
    (parseServers raw).length = (raw.data.filter (fun c => c != ' ')).count ',' + 1 ∧
    useCustom (parseServers raw) = true ∧
    (∀ {IP : Type} (net : Net IP) (ipv6 : Bool) (targ : String),
      (lookup net ⟨parseServers raw, ipv6⟩ targ).queries ≠ [] ∧
      (∀ q ∈ (lookup net ⟨parseServers raw, ipv6⟩ targ).queries,
        ∃ srv ∈ parseServers raw, q = forwardQuery ipv6 targ srv) ∧
      (lookupReverse net ⟨parseServers raw, ipv6⟩ targ).queries ≠ [] ∧
      (∀ q ∈ (lookupReverse net ⟨parseServers raw, ipv6⟩ targ).queries,
        ∃ srv ∈ parseServers raw, q = reverseQuery targ srv)) ∧
    parseServers " " = [""] ∧
    parseServers "1.1.1.1," = ["1.1.1.1", ""] ∧
    parseServers " , " = ["", ""] ∧
    (∀ s : String, useCustom (parseServers s) = false ↔ s = "") := by
  have hlen := parseServers_length
  have hne : ∀ s : String, s ≠ "" → parseServers s ≠ [] := by
    intro s hs hnil
    have h := hlen s hs
    rw [hnil] at h
    simp at h
  refine ⟨hne raw hraw, hlen raw hraw, ?_, ?_, by decide, by decide, by decide, ?_⟩
  · have h := (length_pos_iff_ne_nil _).mpr (hne raw hraw)
    simpa [useCustom] using h
  · intro IP net ipv6 targ
    obtain ⟨hf1, hf2, _⟩ := lookup_queries net ⟨parseServers raw, ipv6⟩ targ
    obtain ⟨hr1, hr2, _⟩ := lookupReverse_queries net ⟨parseServers raw, ipv6⟩ targ
    refine ⟨hf1, ?_, hr1, ?_⟩
    · intro q hq
      have hmem := (hf2 (hne raw hraw)).subset hq
      rw [List.mem_map] at hmem
      obtain ⟨srv, hsrv, rfl⟩ := hmem
      exact ⟨srv, hsrv, rfl⟩
    · intro q hq
      have hmem := (hr2 (hne raw hraw)).subset hq
      rw [List.mem_map] at hmem
      obtain ⟨srv, hsrv, rfl⟩ := hmem
      exact ⟨srv, hsrv, rfl⟩
  · intro s
    constructor
    · intro h
      by_contra hs
      have h2 := (length_pos_iff_ne_nil _).mpr (hne s hs)
      simp [useCustom] at h
      exact hne s hs h
    · intro h
      rw [h]; decide

/-- The witness of C10: the raw string `1.1.1.1, ,` gives three servers, the last two with
empty names. -/
theorem parseServers_nonempty_of_nonempty_witness :
    parseServers "1.1.1.1, ," = ["1.1.1.1", "", ""] ∧
    parseServers "1.1.1.1, ," ≠ [] ∧
    (parseServers "1.1.1.1, ,").length =
      ("1.1.1.1, ,".data.filter (fun c => c != ' ')).count ',' + 1 :=
  ⟨by decide,
   (parseServers_nonempty_of_nonempty "1.1.1.1, ," (by decide)).1,
   (parseServers_nonempty_of_nonempty "1.1.1.1, ," (by decide)).2.1⟩

/-! ## Requested address family -/

/-- C9, the claim as stated fails.  With IPv6 inclusion disabled and no custom nameserver,
the single query of `lookup` is `net.LookupIP(targ)`, which asks for both families, not for
IPv4 only. -/
theorem lookup_system_family_counterexample :
    (lookup demoNet ⟨[], false⟩ "example.com").queries = [Query.sysLookupIP "example.com"] ∧
    (Query.sysLookupIP "example.com").network = some "ip" ∧
    ¬ (∀ q ∈ (lookup demoNet ⟨[], false⟩ "example.com").queries, q.network = some "ip4") := by
  decide

/-- C9 as amended.  On the custom-chain path every attempt of `lookup` asks its server for
IPv4 addresses only (`ip4`) when IPv6 inclusion is disabled and for both families (`ip`) when
it is enabled.  On the platform-resolver path the single query is `net.LookupIP(targ)`, which
asks for both families whatever the flag. -/
theorem lookup_requested_family {IP : Type} (net : Net IP) (cfg : Config) (targ : String) :
    (cfg.servers ≠ [] →
      (lookup net cfg targ).queries ≠ [] ∧
      ∀ q ∈ (lookup net cfg targ).queries,
        q.network = some (if cfg.ipv6 then "ip" else "ip4") ∧
        ∃ srv ∈ cfg.servers,
          q = Query.lookupIP (srv ++ ":53") (if cfg.ipv6 then "ip" else "ip4") targ) ∧
    (cfg.servers = [] →
      (lookup net cfg targ).queries = [Query.sysLookupIP targ] ∧
      ∀ q ∈ (lookup net cfg targ).queries, q.network = some "ip") := by
  obtain ⟨h1, h2, h3⟩ := lookup_queries net cfg targ
  refine ⟨fun hne => ⟨h1, ?_⟩, fun hnil => ⟨h3 hnil, ?_⟩⟩
  · intro q hq
    have hmem := (h2 hne).subset hq
    rw [List.mem_map] at hmem
    obtain ⟨srv, hsrv, rfl⟩ := hmem
    exact ⟨rfl, srv, hsrv, rfl⟩
  · intro q hq
    rw [h3 hnil, List.mem_singleton] at hq
    rw [hq]; rfl

/-- The witness of C9: three custom nameservers with the flag disabled, and the platform
resolver with the flag disabled. -/
theorem lookup_requested_family_witness :
    (∀ q ∈ (lookup demoNet ⟨["10.0.0.1", "10.0.0.2", "10.0.0.3"], false⟩
        "example.com").queries,
      q.network = some "ip4" ∧
      ∃ srv ∈ ["10.0.0.1", "10.0.0.2", "10.0.0.3"],
        q = Query.lookupIP (srv ++ ":53") "ip4" "example.com") ∧
    (∀ q ∈ (lookup demoNet ⟨[], false⟩ "example.com").queries, q.network = some "ip") :=
  ⟨((lookup_requested_family demoNet ⟨["10.0.0.1", "10.0.0.2", "10.0.0.3"], false⟩
      "example.com").1 (by decide)).2,
   ((lookup_requested_family demoNet ⟨[], false⟩ "example.com").2 rfl).2⟩

/-! ## The concurrency cap -/

theorem countP_set_of_getElem? {α : Type} (p : α → Bool) (l : List α) (i : Nat) (x y : α)
    (h : l[i]? = some x) :
    (l.set i y).countP p + (if p x then 1 else 0) = l.countP p + (if p y then 1 else 0) := by
  obtain ⟨hi, hx⟩ := List.getElem?_eq_some.mp h
  have hle := List.boole_getElem_le_countP p l i hi
  rw [List.countP_set p l i y hi, hx]
  rw [hx] at hle
  omega

theorem inv_start (maxCon : Int) (input : Input) (s : Sched)
    (h : start maxCon input = some s) : Inv maxCon s := by
  unfold start at h
  by_cases hneg : maxCon < 0
  · rw [if_pos hneg] at h
    cases h
  · rw [if_neg hneg, Option.some.injEq] at h
    subst h
    cases input <;> simp [Inv, held, enter, Pc.holdsPermit] <;> omega

theorem holdsPermit_resolving : Phase.resolving.holdsPermit = true := rfl
theorem holdsPermit_resolved : Phase.resolved.holdsPermit = true := rfl
theorem holdsPermit_released : Phase.released.holdsPermit = false := rfl
theorem holdsPermit_finished : Phase.finished.holdsPermit = false := rfl

theorem inv_stepMain (maxCon : Int) (s s' : Sched) (h : stepMain maxCon s = some s')
    (hinv : Inv maxCon s) : Inv maxCon s' := by
  obtain ⟨pending, readError, pc, sem, wg, tasks⟩ := s
  obtain ⟨h1, h2⟩ := hinv
  simp only [held] at h1 h2
  cases pc with
  | loop =>
    have h1' : tasks.countP (fun t => t.2.holdsPermit) = sem := by
      simpa [Pc.holdsPermit] using h1
    cases pending with
    | nil =>
      simp only [stepMain, Option.some.injEq] at h
      subst h
      cases readError <;> simpa [Inv, held, Pc.holdsPermit] using ⟨h1', h2⟩
    | cons line rest =>
      simp only [stepMain] at h
      by_cases hlt : (sem : Int) < maxCon
      · rw [if_pos hlt, Option.some.injEq] at h
        subst h
        exact ⟨by simp [held, Pc.holdsPermit, h1'], by push_cast; omega⟩
      · rw [if_neg hlt] at h
        cases h
  | acquired line =>
    simp only [stepMain, Option.some.injEq] at h
    subst h
    simpa [Inv, held, Pc.holdsPermit] using ⟨h1, h2⟩
  | counted line =>
    have h1' : tasks.countP (fun t => t.2.holdsPermit) + 1 = sem := by
      simpa [Pc.holdsPermit] using h1
    simp only [stepMain, Option.some.injEq] at h
    subst h
    refine ⟨?_, h2⟩
    simp only [held, List.countP_append, List.countP_cons, List.countP_nil,
      holdsPermit_resolving, Pc.holdsPermit]
    simpa using h1'
  | waiting =>
    simp only [stepMain] at h
    by_cases hwg : wg = 0
    · rw [if_pos hwg, Option.some.injEq] at h
      subst h
      simpa [Inv, held, Pc.holdsPermit] using ⟨h1, h2⟩
    · rw [if_neg hwg] at h
      cases h
  | exited =>
    simp only [stepMain] at h
    cases h

theorem inv_stepTask (maxCon : Int) (i : Nat) (s s' : Sched) (h : stepTask i s = some s')
    (hinv : Inv maxCon s) : Inv maxCon s' := by
  obtain ⟨pending, readError, pc, sem, wg, tasks⟩ := s
  obtain ⟨h1, h2⟩ := hinv
  simp only [held] at h1 h2
  simp only [stepTask] at h
  cases hget : tasks[i]? with
  | none => rw [hget] at h; cases h
  | some t =>
    obtain ⟨line, ph⟩ := t
    rw [hget] at h
    cases ph with
    | resolving =>
      simp only [Option.some.injEq] at h
      subst h
      have hc := countP_set_of_getElem? (fun t : String × Phase => t.2.holdsPermit) tasks i
        (line, .resolving) (line, .resolved) hget
      simp only [holdsPermit_resolving, holdsPermit_resolved, if_true] at hc
      simp only [Inv, held]
      exact ⟨by omega, h2⟩
    | resolved =>
      simp only at h
      by_cases hpos : sem > 0
      · rw [if_pos hpos, Option.some.injEq] at h
        subst h
        have hc := countP_set_of_getElem? (fun t : String × Phase => t.2.holdsPermit) tasks i
          (line, .resolved) (line, .released) hget
        simp only [holdsPermit_released, holdsPermit_resolved, if_true, Bool.false_eq_true,
          if_false] at hc
        simp only [Inv, held]
        exact ⟨by omega, by omega⟩
      · rw [if_neg hpos] at h
        cases h
    | released =>
      simp only [Option.some.injEq] at h
      subst h
      have hc := countP_set_of_getElem? (fun t : String × Phase => t.2.holdsPermit) tasks i
        (line, .released) (line, .finished) hget
      simp only [holdsPermit_released, holdsPermit_finished, Bool.false_eq_true,
        if_false] at hc
      simp only [Inv, held]
      exact ⟨by omega, h2⟩
    | finished =>
      simp only at h
      cases h

theorem stepHandoff_blocked (maxCon : Int) (i : Nat) (s : Sched) (hinv : Inv maxCon s) :
    stepHandoff i s = none := by
  obtain ⟨pending, readError, pc, sem, wg, tasks⟩ := s
  obtain ⟨h1, h2⟩ := hinv
  simp only [held] at h1 h2
  unfold stepHandoff
  split
  · rename_i line rest l hget
    by_cases hz : sem = 0
    · exfalso
      have hc := List.boole_getElem_le_countP (fun t : String × Phase => t.2.holdsPermit) tasks i
        (List.getElem?_eq_some.mp hget).1
      rw [(List.getElem?_eq_some.mp hget).2] at hc
      simp only [holdsPermit_resolved, if_true] at hc
      omega
    · simp only [hz, if_false]
  · rfl

theorem inv_step (maxCon : Int) (a : Action) (s s' : Sched) (h : step maxCon a s = some s')
    (hinv : Inv maxCon s) : Inv maxCon s' := by
  cases a with
  | main => exact inv_stepMain maxCon s s' h hinv
  | task i => exact inv_stepTask maxCon i s s' h hinv
  | handoff i =>
    simp only [step, stepHandoff_blocked maxCon i s hinv] at h
    cases h

theorem inv_run (maxCon : Int) (schedule : List Action) (s s' : Sched)
    (h : run maxCon schedule s = some s') (hinv : Inv maxCon s) : Inv maxCon s' := by
  induction schedule generalizing s with
  | nil =>
    simp only [run, Option.some.injEq] at h
    rw [← h]; exact hinv
  | cons a rest ih =>
    simp only [run] at h
    cases hstep : step maxCon a s with
    | none => rw [hstep] at h; cases h
    | some s1 =>
      rw [hstep] at h
      exact ih s1 h (inv_step maxCon a s s1 hstep hinv)

theorem active_le_held (s : Sched) : active s ≤ held s := by
  unfold active held
  have h := List.countP_mono_left (l := s.tasks)
    (p := fun t : String × Phase => t.2 == Phase.resolving)
    (q := fun t : String × Phase => t.2.holdsPermit)
    (by
      intro x _ hx
      have hx2 : x.2 = Phase.resolving := by simpa using hx
      show x.2.holdsPermit = true
      rw [hx2]; rfl)
  omega

theorem stepMain_shape (maxCon : Int) (s s' : Sched) (h : stepMain maxCon s = some s') :
    (s.tasks.length < s'.tasks.length →
      ∃ line, s.pc = Pc.counted line ∧ s'.tasks = s.tasks ++ [(line, Phase.resolving)]) ∧
    ¬ s'.sem < s.sem ∧
    (s.sem < s'.sem →
      ∃ line, s.pc = Pc.loop ∧ s'.pc = Pc.acquired line ∧ s'.tasks = s.tasks) := by
  obtain ⟨pending, readError, pc, sem, wg, tasks⟩ := s
  cases pc with
  | loop =>
    cases pending with
    | nil =>
      simp only [stepMain, Option.some.injEq] at h
      subst h
      simp
    | cons line rest =>
      simp only [stepMain] at h
      by_cases hlt : (sem : Int) < maxCon
      · rw [if_pos hlt, Option.some.injEq] at h
        subst h
        simp
      · rw [if_neg hlt] at h
        cases h
  | acquired line =>
    simp only [stepMain, Option.some.injEq] at h
    subst h
    simp
  | counted line =>
    simp only [stepMain, Option.some.injEq] at h
    subst h
    simp
  | waiting =>
    simp only [stepMain] at h
    by_cases hwg : wg = 0
    · rw [if_pos hwg, Option.some.injEq] at h
      subst h
      simp
    · rw [if_neg hwg] at h
      cases h
  | exited =>
    simp only [stepMain] at h
    cases h

theorem stepTask_shape (i : Nat) (s s' : Sched) (h : stepTask i s = some s') :
    s'.tasks.length = s.tasks.length ∧
    ¬ s.sem < s'.sem ∧
    (s'.sem < s.sem →
      ∃ line, s.tasks[i]? = some (line, Phase.resolved) ∧
        s'.tasks = s.tasks.set i (line, Phase.released)) := by
  obtain ⟨pending, readError, pc, sem, wg, tasks⟩ := s
  simp only [stepTask] at h
  cases hget : tasks[i]? with
  | none => rw [hget] at h; cases h
  | some t =>
    obtain ⟨line, ph⟩ := t
    rw [hget] at h
    cases ph with
    | resolving =>
      simp only [Option.some.injEq] at h
      subst h
      simp
    | resolved =>
      simp only at h
      by_cases hpos : sem > 0
      · rw [if_pos hpos, Option.some.injEq] at h
        subst h
        simp
      · rw [if_neg hpos] at h
        cases h
    | released =>
      simp only [Option.some.injEq] at h
      subst h
      simp
    | finished =>
      simp only at h
      cases h

/-- C8. Concurrency cap.  For every input (standard input or positional argument), every
configured maximum concurrency `maxCon` and every interleaving of the dispatcher and its
lookup tasks, in the state reached the number of lookups in progress is at most `maxCon`: the
values buffered in `sem` are exactly the permits held, by the launched tasks that have not
yet received from `sem` and by the dispatcher between its send and the launch, and they are
at most `maxCon`.  Whatever step comes next, a task is launched only by the dispatcher
holding a permit it has acquired, a permit is acquired only by the dispatcher at the loop
head, and a permit is released only by a task whose `doResolve` call has returned. -/
theorem active_lookups_le_maxCon (maxCon : Int) (input : Input) (schedule : List Action)
    (s : Sched) (hrun : exec maxCon input schedule = some s) :
    (active s : Int) ≤ maxCon ∧
    held s = s.sem ∧
    (s.sem : Int) ≤ maxCon ∧
    (∀ (a : Action) (s' : Sched), step maxCon a s = some s' →
      (s.tasks.length < s'.tasks.length →
        ∃ line, a = Action.main ∧ s.pc = Pc.counted line ∧ 0 < s.sem ∧
          s'.tasks = s.tasks ++ [(line, Phase.resolving)]) ∧
      (s.sem < s'.sem →
        ∃ line, a = Action.main ∧ s.pc = Pc.loop ∧ s'.pc = Pc.acquired line ∧
          s'.tasks = s.tasks) ∧
      (s'.sem < s.sem →
        ∃ i line, a = Action.task i ∧ s.tasks[i]? = some (line, Phase.resolved) ∧
          s'.tasks = s.tasks.set i (line, Phase.released))) := by
  have hinv : Inv maxCon s := by
    unfold exec at hrun
    cases hstart : start maxCon input with
    | none => rw [hstart] at hrun; cases hrun
    | some s0 =>
      rw [hstart] at hrun
      exact inv_run maxCon schedule s0 s hrun (inv_start maxCon input s0 hstart)
  have hact := active_le_held s
  have hheld := hinv.1
  have hsem := hinv.2
  refine ⟨by omega, hheld, hsem, ?_⟩
  intro a s' hstep
  cases a with
  | main =>
    obtain ⟨h1, h2, h3⟩ := stepMain_shape maxCon s s' hstep
    refine ⟨?_, ?_, fun hlt => absurd hlt h2⟩
    · intro hlen
      obtain ⟨line, hpc, ht⟩ := h1 hlen
      refine ⟨line, rfl, hpc, ?_, ht⟩
      unfold held at hheld
      rw [hpc] at hheld
      simp only [Pc.holdsPermit, if_true] at hheld
      omega
    · intro hlt
      obtain ⟨line, hpc, hpc', ht⟩ := h3 hlt
      exact ⟨line, rfl, hpc, hpc', ht⟩
  | task i =>
    obtain ⟨h1, h2, h3⟩ := stepTask_shape i s s' hstep
    refine ⟨fun hlen => ?_, fun hlt => absurd hlt h2, ?_⟩
    · omega
    · intro hlt
      obtain ⟨line, hget, ht⟩ := h3 hlt
      exact ⟨i, line, rfl, hget, ht⟩
  | handoff i =>
    simp only [step, stepHandoff_blocked maxCon i s hinv] at hstep
    cases hstep

/-- The witness of C8: capacity 1 and three lines on standard input; the first task is
launched and resolving while the dispatcher is blocked on the full channel. -/
theorem active_lookups_le_maxCon_witness :
    exec 1 (Input.stdin ["a", "b", "c"] false) [Action.main, Action.main, Action.main] =
      some ⟨["b", "c"], false, Pc.loop, 1, 1, [("a", Phase.resolving)]⟩ ∧
    step 1 Action.main ⟨["b", "c"], false, Pc.loop, 1, 1, [("a", Phase.resolving)]⟩ = none ∧
    (active ⟨["b", "c"], false, Pc.loop, 1, 1, [("a", Phase.resolving)]⟩ : Int) ≤ 1 :=
  ⟨by decide, by decide,
   (active_lookups_le_maxCon 1 (Input.stdin ["a", "b", "c"] false)
      [Action.main, Action.main, Action.main] _ (by decide)).1⟩

end Resolve
